import Mathlib

/-!
Verification of the incremental graph-synchronization core of the repository
(`cartography/intel/aws/resourcegroupstaggingapi.py` and the relationship
inference behaviour exercised by `tests/integration/.../test_iam.py`).

The Python module is shallowly embedded: the Neo4j graph reachable from the
ingestion query is modelled as explicit lists of resource nodes, tag nodes
and `TAGGED` edges, and the Cypher `MERGE`/`SET` semantics of `load_tags`
is modelled as an explicit keyed upsert, one step per
(record, tag, matched resource) row, in the row order produced by the
query's nested `UNWIND`s.  Version markers (`aws_update_tag`) and the Neo4j
server clock (`timestamp()`) are natural numbers passed explicitly.
-/

namespace Cartography

/-- One `{Key, Value}` entry of a record's `Tags` list. -/
structure TagKV where
  Key : String
  Value : String
deriving DecidableEq

/-- One element of the `ResourceTagMappingList` consumed by `transform_tags`
and `load_tags`: the raw ARN, the tag list, and the `resource_id` field that
`transform_tags` writes (absent, i.e. `none`, on raw records). -/
structure TagMapping where
  ResourceARN : String
  Tags : List TagKV
  resource_id : Option String := none
deriving DecidableEq

/-- A resource node already present in the graph (written by other intel
modules, read-only here).  `nid` is the store-internal node identity;
`label`, `propName`, `propValue` are what the query's
`MATCH (resource:$resource_label{$property: ...})` inspects. -/
structure ResourceNode where
  nid : Nat
  label : String
  propName : String
  propValue : String
deriving DecidableEq

/-- An `AWSTag:Tag` node, keyed by its `id` property (`Key + ":" + Value`). -/
structure TagNode where
  id : String
  key : String
  value : String
  region : String
  lastupdated : Nat
  firstseen : Nat
deriving DecidableEq

/-- A `TAGGED` edge from the resource node `srcNid` to the tag node
`tagId`. -/
structure TaggedEdge where
  srcNid : Nat
  tagId : String
  lastupdated : Nat
  firstseen : Nat
deriving DecidableEq

/-- The slice of the graph store visible to this module. -/
structure Graph where
  resources : List ResourceNode
  tags : List TagNode
  edges : List TaggedEdge
deriving DecidableEq

/-! ## Identifier normalizers (`get_short_id_from_ec2_arn`,
`get_bucket_name_from_arn`)

Python's `str.split(sep)` keeps empty chunks and always returns at least one
chunk; `[-1]` takes the last chunk.  `pySplitAux` mirrors that exactly. -/

def pySplitAux (sep : Char) (acc : List Char) : List Char → List (List Char)
  | [] => [acc.reverse]
  | c :: rest => if c = sep then acc.reverse :: pySplitAux sep [] rest else pySplitAux sep (c :: acc) rest

/-- Python's `s.split(sep)` for a one-character separator. -/
def pySplit (sep : Char) (s : String) : List String :=
  (pySplitAux sep [] s.data).map (fun l => ⟨l⟩)

/-- `arn.split('/')[-1]`. -/
def get_short_id_from_ec2_arn (arn : String) : String :=
  (pySplit '/' arn).getLastD ""

/-- `bucket_arn.split(':')[-1]`. -/
def get_bucket_name_from_arn (bucket_arn : String) : String :=
  (pySplit ':' bucket_arn).getLastD ""

/-! ## The resource-type mapping table -/

/-- One entry of `TAG_RESOURCE_TYPE_MAPPINGS`: node label, identifying
property, and the optional `id_func` override. -/
structure TypeMapping where
  label : String
  property : String
  id_func : Option (String → String) := none

def TAG_RESOURCE_TYPE_MAPPINGS : List (String × TypeMapping) :=
  [ ("ec2:instance", { label := "EC2Instance", property := "id", id_func := some get_short_id_from_ec2_arn }),
    ("ec2:network-interface", { label := "NetworkInterface", property := "id", id_func := some get_short_id_from_ec2_arn }),
    ("ec2:security-group", { label := "EC2SecurityGroup", property := "id", id_func := some get_short_id_from_ec2_arn }),
    ("ec2:subnet", { label := "EC2Subnet", property := "subnetid", id_func := some get_short_id_from_ec2_arn }),
    ("ec2:vpc", { label := "AWSVpc", property := "id", id_func := some get_short_id_from_ec2_arn }),
    ("ec2:transit-gateway", { label := "AWSTransitGateway", property := "id" }),
    ("ec2:transit-gateway-attachment", { label := "AWSTransitGatewayAttachment", property := "id" }),
    ("es:domain", { label := "ESDomain", property := "id" }),
    ("redshift:cluster", { label := "RedshiftCluster", property := "id" }),
    ("rds:db", { label := "RDSInstance", property := "id" }),
    ("rds:subgrp", { label := "DBSubnetGroup", property := "id" }),
    ("s3", { label := "S3Bucket", property := "id", id_func := some get_bucket_name_from_arn }) ]

/-- Dictionary lookup `TAG_RESOURCE_TYPE_MAPPINGS[resource_type]`;
`none` models Python's `KeyError`. -/
def findMapping (resource_type : String) : Option TypeMapping :=
  (TAG_RESOURCE_TYPE_MAPPINGS.find? (fun p => p.1 == resource_type)).map (fun p => p.2)

/-- The keys of `TAG_RESOURCE_TYPE_MAPPINGS`, in iteration order. -/
def resourceTypeKeys : List String := TAG_RESOURCE_TYPE_MAPPINGS.map (fun p => p.1)

/-! ## `compute_resource_id` and `transform_tags` -/

/-- `compute_resource_id(tag_mapping, resource_type)`: the raw ARN, or the
`id_func` applied to it when the mapping entry carries one.  `none` models
the `KeyError` raised on an unknown `resource_type`. -/
def compute_resource_id (tag_mapping : TagMapping) (resource_type : String) : Option String :=
  match findMapping resource_type with
  | none => none
  | some m =>
    match m.id_func with
    | some f => some (f tag_mapping.ResourceARN)
    | none => some tag_mapping.ResourceARN

/-- `transform_tags(tag_data, resource_type)`: sets `resource_id` on every
record in order, propagating a lookup failure. -/
def transform_tags : List TagMapping → String → Option (List TagMapping)
  | [], _ => some []
  | tm :: rest, resource_type =>
    match compute_resource_id tm resource_type, transform_tags rest resource_type with
    | some rid, some rest2 => some ({ tm with resource_id := some rid } :: rest2)
    | _, _ => none

/-! ## `load_tags`

The ingestion query is, per (record, tag, matched-resource) row:
`MATCH` the resource, `MERGE` the tag node keyed by its `id` property with
`ON CREATE SET aws_tag.firstseen = timestamp()` then unconditional `SET` of
`lastupdated`, `key`, `value`, `region`, then `MERGE` the `TAGGED` edge with
unconditional `SET` of `r.lastupdated` and `r.firstseen = timestamp()`. -/

def tagNodeId (t : TagKV) : String := t.Key ++ ":" ++ t.Value

/-- Keyed lookup of a tag node by its `id` property. -/
def findTag : List TagNode → String → Option TagNode
  | [], _ => none
  | n :: rest, tid => if n.id = tid then some n else findTag rest tid

/-- Keyed lookup of a `TAGGED` edge by its endpoints. -/
def findEdge : List TaggedEdge → Nat → String → Option TaggedEdge
  | [], _, _ => none
  | e :: rest, nid, tid => if e.srcNid = nid ∧ e.tagId = tid then some e else findEdge rest nid tid

/-- The unconditional `SET` clause on the tag node. -/
def setTagProps (n : TagNode) (t : TagKV) (region : String) (marker : Nat) : TagNode :=
  { n with key := t.Key, value := t.Value, region := region, lastupdated := marker }

/-- `MERGE (aws_tag:AWSTag:Tag{id: Key + ":" + Value}) ON CREATE SET
firstseen` followed by the unconditional `SET`. -/
def mergeTagNode (t : TagKV) (region : String) (marker now : Nat) : List TagNode → List TagNode
  | [] => [{ id := tagNodeId t, key := t.Key, value := t.Value, region := region,
             lastupdated := marker, firstseen := now }]
  | n :: rest =>
    if n.id = tagNodeId t then setTagProps n t region marker :: rest
    else n :: mergeTagNode t region marker now rest

/-- `MERGE (resource)-[r:TAGGED]->(aws_tag)` followed by
`SET r.lastupdated = $UpdateTag, r.firstseen = timestamp()` — note the
`firstseen` write is NOT guarded by `ON CREATE`, faithful to the source. -/
def mergeTaggedEdge (nid : Nat) (tid : String) (marker now : Nat) : List TaggedEdge → List TaggedEdge
  | [] => [{ srcNid := nid, tagId := tid, lastupdated := marker, firstseen := now }]
  | e :: rest =>
    if e.srcNid = nid ∧ e.tagId = tid then { e with lastupdated := marker, firstseen := now } :: rest
    else e :: mergeTaggedEdge nid tid marker now rest

/-- One (record, tag, matched-resource) row of the query. -/
def mergeRow (region : String) (marker now : Nat) (g : Graph) (nid : Nat) (t : TagKV) : Graph :=
  { g with tags := mergeTagNode t region marker now g.tags,
           edges := mergeTaggedEdge nid (tagNodeId t) marker now g.edges }

/-- `MATCH (resource:$resource_label{$property: rid})`. -/
def matchingResources (g : Graph) (lab prop rid : String) : List ResourceNode :=
  g.resources.filter (fun r => r.label == lab && r.propName == prop && r.propValue == rid)

/-- The resources matched for one record; a missing `resource_id` is a null
match, i.e. no rows. -/
def recordResources (g : Graph) (lab prop : String) (tm : TagMapping) : List ResourceNode :=
  match tm.resource_id with
  | some rid => matchingResources g lab prop rid
  | none => []

/-- All rows for one (record, tag) pair. -/
def processTag (lab prop region : String) (marker now : Nat) (g : Graph) (tm : TagMapping) (t : TagKV) : Graph :=
  (recordResources g lab prop tm).foldl (fun g2 r => mergeRow region marker now g2 r.nid t) g

/-- `UNWIND tag_mapping.Tags as input_tag`. -/
def processMapping (lab prop region : String) (marker now : Nat) (g : Graph) (tm : TagMapping) : Graph :=
  tm.Tags.foldl (fun g2 t => processTag lab prop region marker now g2 tm t) g

/-- The whole query, for an already-resolved label and property. -/
def loadTagsWith (g : Graph) (tag_data : List TagMapping) (lab prop region : String) (marker now : Nat) : Graph :=
  tag_data.foldl (fun g2 tm => processMapping lab prop region marker now g2 tm) g

/-- `load_tags(neo4j_session, tag_data, resource_type, region,
aws_update_tag)`; `none` models the `KeyError` on an unknown kind. -/
def load_tags (g : Graph) (tag_data : List TagMapping) (resource_type region : String) (marker now : Nat) : Option Graph :=
  (findMapping resource_type).map (fun m => loadTagsWith g tag_data m.label m.property region marker now)

/-! ## The flattened row list of one `load_tags` call -/

/-- One elementary upsert step. -/
def mergeStep (region : String) (marker now : Nat) (g : Graph) (p : Nat × TagKV) : Graph :=
  mergeRow region marker now g p.1 p.2

/-- The rows contributed by one record and one tag. -/
def tagRows (g : Graph) (lab prop : String) (tm : TagMapping) (t : TagKV) : List (Nat × TagKV) :=
  (recordResources g lab prop tm).map (fun r => (r.nid, t))

/-- The rows contributed by one record. -/
def mappingRows (g : Graph) (lab prop : String) (tm : TagMapping) : List (Nat × TagKV) :=
  tm.Tags.flatMap (fun t => tagRows g lab prop tm t)

/-- Every (matched-resource, tag) row of a batch, in query order. -/
def rows (g : Graph) (lab prop : String) (td : List TagMapping) : List (Nat × TagKV) :=
  td.flatMap (fun tm => mappingRows g lab prop tm)

/-- The tag-node ids written by a batch (the nodes "touched" by it). -/
def touchedTagIds (g : Graph) (lab prop : String) (td : List TagMapping) : List String :=
  (rows g lab prop td).map (fun p => tagNodeId p.2)

/-- The `TAGGED`-edge keys written by a batch. -/
def touchedEdgeKeys (g : Graph) (lab prop : String) (td : List TagMapping) : List (Nat × String) :=
  (rows g lab prop td).map (fun p => (p.1, tagNodeId p.2))

/-- The key of a `TAGGED` edge. -/
def edgeKey (e : TaggedEdge) : Nat × String := (e.srcNid, e.tagId)

/-! ## `sync`: merge passes for every region and kind, then one cleanup -/

inductive SyncEvent
  | merge (region : String) (resource_type : String)
  | cleanupEvent
deriving DecidableEq

/-- The nested `for region in regions: for resource_type in
TAG_RESOURCE_TYPE_MAPPINGS.keys(): ... load_tags(...)` loop of `sync`,
recorded as a trace of completed merge passes. -/
def merge_phase (regions : List String) : List SyncEvent :=
  regions.foldl
    (fun acc region => resourceTypeKeys.foldl (fun acc2 rt => acc2 ++ [SyncEvent.merge region rt]) acc)
    []

/-- The event trace of `sync`: the merge loops, then the single `cleanup`
call that follows them in the function body. -/
def sync_trace (regions : List String) : List SyncEvent :=
  merge_phase regions ++ [SyncEvent.cleanupEvent]

/-! ## Cleanup -/

/-- Modelled from the spec: `cleanup` runs the job file
`aws_import_tags_cleanup.json` via `run_cleanup_job`; that job file is not
among the sources.  Per the spec it deletes every `TAGGED` edge in scope
whose version marker differs from the current run's marker, and afterwards
every tag node left with zero remaining edges, keeping everything else
unchanged. -/
def cleanup (g : Graph) (marker : Nat) : Graph :=
  { g with edges := g.edges.filter (fun e => e.lastupdated == marker),
           tags := g.tags.filter (fun n =>
             (g.edges.filter (fun e => e.lastupdated == marker)).any (fun e => e.tagId == n.id)) }

/-! ## Relationship inference (deny precedence)

Modelled from the spec: the permission-relationships module itself is not
among the sources (only its integration test is), so the engine of spec
§4.4 is embedded from the spec's words: glob matching with `*` and `?`,
candidate edges from matching allow statements, and suppression of a pair
whenever any deny statement of the same principal matches it. -/

inductive Effect
  | allow
  | deny
deriving DecidableEq

/-- A flattened policy statement of a principal. -/
structure PolicyStatement where
  effect : Effect
  actions : List String
  resources : List String
deriving DecidableEq

/-- A principal together with its flattened effective statements. -/
structure Principal where
  name : String
  statements : List PolicyStatement
deriving DecidableEq

/-- One declarative relationship rule. -/
structure RelationshipRule where
  target_kind : String
  action_patterns : List String
  edge_name : String
deriving DecidableEq

/-- A candidate resource node for inference. -/
structure CandidateResource where
  kind : String
  rid : String
deriving DecidableEq

/-- All suffixes of a character list, longest first. -/
def listTails : List Char → List (List Char)
  | [] => [[]]
  | c :: rest => (c :: rest) :: listTails rest

/-- Glob matching: `*` matches any substring, `?` exactly one character,
anything else matches itself. -/
def globMatch : List Char → List Char → Bool
  | [], s => s.isEmpty
  | '*' :: ps, s => (listTails s).any (fun t => globMatch ps t)
  | '?' :: ps, s =>
    match s with
    | [] => false
    | _ :: s2 => globMatch ps s2
  | c :: ps, s =>
    match s with
    | [] => false
    | c2 :: s2 => c == c2 && globMatch ps s2

def globMatchS (pat s : String) : Bool := globMatch pat.data s.data

/-- Modelled from the spec: a statement matches a (rule, resource) pair when
one of its action patterns matches one of the rule's actions and one of its
resource patterns matches the resource's identifier. -/
def stmtMatches (st : PolicyStatement) (rule : RelationshipRule) (res : CandidateResource) : Bool :=
  st.actions.any (fun sa => rule.action_patterns.any (fun ra => globMatchS sa ra)) &&
  st.resources.any (fun rp => globMatchS rp res.rid)

/-- Modelled from the spec: a principal is granted the capability when some
allow statement matches and no deny statement matches. -/
def principalGrants (p : Principal) (rule : RelationshipRule) (res : CandidateResource) : Bool :=
  p.statements.any (fun st => st.effect == Effect.allow && stmtMatches st rule res) &&
  !(p.statements.any (fun st => st.effect == Effect.deny && stmtMatches st rule res))

/-- Modelled from the spec: the set of derived (principal, resource,
edge-name) triples emitted by one inference run. -/
def inferEdges (principals : List Principal) (rules : List RelationshipRule)
    (resources2 : List CandidateResource) : List (String × String × String) :=
  rules.flatMap (fun rule =>
    principals.flatMap (fun p =>
      (resources2.filter (fun r => r.kind == rule.target_kind)).filterMap (fun r =>
        if principalGrants p rule r then some (p.name, r.rid, rule.edge_name) else none)))

/-! ## Lemmas about the normalizers -/

theorem pySplitAux_no_sep (sep : Char) :
    ∀ (l acc : List Char), sep ∉ l → pySplitAux sep acc l = [acc.reverse ++ l]
  | [], acc, _ => by simp [pySplitAux]
  | c :: rest, acc, h => by
    have hc : ¬ c = sep := by
      intro hh
      apply h
      rw [← hh]
      exact List.mem_cons_self c rest
    have hrest : sep ∉ rest := fun hm => h (List.mem_cons_of_mem c hm)
    show (if c = sep then acc.reverse :: pySplitAux sep [] rest
          else pySplitAux sep (c :: acc) rest) = [acc.reverse ++ c :: rest]
    rw [if_neg hc, pySplitAux_no_sep sep rest (c :: acc) hrest]
    simp

theorem pySplit_no_sep (sep : Char) (s : String) (h : sep ∉ s.data) : pySplit sep s = [s] := by
  cases s with
  | mk l =>
    unfold pySplit
    rw [pySplitAux_no_sep sep l [] h]
    simp

theorem get_short_id_no_sep (s : String) (h : ('/' : Char) ∉ s.data) :
    get_short_id_from_ec2_arn s = s := by
  unfold get_short_id_from_ec2_arn
  rw [pySplit_no_sep ('/' : Char) s h]
  rfl

theorem get_bucket_name_no_sep (s : String) (h : (':' : Char) ∉ s.data) :
    get_bucket_name_from_arn s = s := by
  unfold get_bucket_name_from_arn
  rw [pySplit_no_sep (':' : Char) s h]
  rfl

/-! ## Step lemmas for the tag-node upsert -/

theorem findTag_mergeTagNode_ne (t : TagKV) (region : String) (marker now : Nat) (tid : String)
    (h : ¬ tid = tagNodeId t) :
    ∀ tags : List TagNode, findTag (mergeTagNode t region marker now tags) tid = findTag tags tid
  | [] => by
    have h2 : ¬ (tagNodeId t = tid) := fun hh => h hh.symm
    simp [mergeTagNode, findTag, h2]
  | n :: rest => by
    have h3 : ¬ (tagNodeId t = tid) := fun hh => h hh.symm
    by_cases hn : n.id = tagNodeId t
    · have hnid : ¬ (n.id = tid) := by rw [hn]; exact fun hh => h hh.symm
      simp [mergeTagNode, hn, findTag, setTagProps, hnid, h3]
    · by_cases h2 : n.id = tid
      · simp [mergeTagNode, hn, findTag, h2, h, h3]
      · simp [mergeTagNode, hn, findTag, h2,
              findTag_mergeTagNode_ne t region marker now tid h rest]

theorem findTag_mergeTagNode_self_found (t : TagKV) (region : String) (marker now : Nat) :
    ∀ (tags : List TagNode) (n0 : TagNode), findTag tags (tagNodeId t) = some n0 →
      findTag (mergeTagNode t region marker now tags) (tagNodeId t)
        = some { id := n0.id, key := t.Key, value := t.Value, region := region,
                 lastupdated := marker, firstseen := n0.firstseen }
  | [], n0, h => by simp [findTag] at h
  | n :: rest, n0, h => by
    by_cases hn : n.id = tagNodeId t
    · rw [findTag, if_pos hn] at h
      cases h
      simp [mergeTagNode, hn, findTag, setTagProps]
    · rw [findTag, if_neg hn] at h
      simp [mergeTagNode, hn, findTag,
            findTag_mergeTagNode_self_found t region marker now rest n0 h]

theorem findTag_mergeTagNode_self_new (t : TagKV) (region : String) (marker now : Nat) :
    ∀ tags : List TagNode, findTag tags (tagNodeId t) = none →
      findTag (mergeTagNode t region marker now tags) (tagNodeId t)
        = some { id := tagNodeId t, key := t.Key, value := t.Value, region := region,
                 lastupdated := marker, firstseen := now }
  | [], _ => by simp [mergeTagNode, findTag]
  | n :: rest, h => by
    by_cases hn : n.id = tagNodeId t
    · rw [findTag, if_pos hn] at h
      cases h
    · rw [findTag, if_neg hn] at h
      simp [mergeTagNode, hn, findTag,
            findTag_mergeTagNode_self_new t region marker now rest h]

theorem mergeTagNode_ids_found (t : TagKV) (region : String) (marker now : Nat) :
    ∀ (tags : List TagNode) (n0 : TagNode), findTag tags (tagNodeId t) = some n0 →
      (mergeTagNode t region marker now tags).map (fun n => n.id) = tags.map (fun n => n.id)
  | [], n0, h => by simp [findTag] at h
  | n :: rest, n0, h => by
    by_cases hn : n.id = tagNodeId t
    · simp [mergeTagNode, hn, setTagProps]
    · rw [findTag, if_neg hn] at h
      simp [mergeTagNode, hn, mergeTagNode_ids_found t region marker now rest n0 h]

theorem mergeTagNode_ids_new (t : TagKV) (region : String) (marker now : Nat) :
    ∀ tags : List TagNode, findTag tags (tagNodeId t) = none →
      (mergeTagNode t region marker now tags).map (fun n => n.id)
        = tags.map (fun n => n.id) ++ [tagNodeId t]
  | [], _ => by simp [mergeTagNode]
  | n :: rest, h => by
    by_cases hn : n.id = tagNodeId t
    · rw [findTag, if_pos hn] at h
      cases h
    · rw [findTag, if_neg hn] at h
      simp [mergeTagNode, hn, mergeTagNode_ids_new t region marker now rest h]

theorem findTag_eq_none (tid : String) :
    ∀ tags : List TagNode, findTag tags tid = none ↔ tid ∉ tags.map (fun n => n.id)
  | [] => by simp [findTag]
  | n :: rest => by
    by_cases h : n.id = tid
    · simp [findTag, h]
    · have h2 : ¬ tid = n.id := fun hh => h hh.symm
      simp [findTag, h, h2, findTag_eq_none tid rest]

theorem mergeTagNode_nodup (t : TagKV) (region : String) (marker now : Nat) (tags : List TagNode)
    (h : (tags.map (fun n => n.id)).Nodup) :
    ((mergeTagNode t region marker now tags).map (fun n => n.id)).Nodup := by
  cases hf : findTag tags (tagNodeId t) with
  | some n0 =>
    rw [mergeTagNode_ids_found t region marker now tags n0 hf]
    exact h
  | none =>
    rw [mergeTagNode_ids_new t region marker now tags hf]
    rw [List.nodup_append]
    refine ⟨h, List.nodup_singleton _, ?_⟩
    intro x hx hx2
    rw [List.mem_singleton] at hx2
    subst hx2
    exact (findTag_eq_none (tagNodeId t) tags).mp hf hx

/-! ## Step lemmas for the `TAGGED`-edge upsert -/

theorem findEdge_mergeTaggedEdge_ne (nid : Nat) (tid : String) (marker now : Nat)
    (nid2 : Nat) (tid2 : String) (h : ¬ (nid2 = nid ∧ tid2 = tid)) :
    ∀ edges : List TaggedEdge,
      findEdge (mergeTaggedEdge nid tid marker now edges) nid2 tid2 = findEdge edges nid2 tid2
  | [] => by
    have h2 : ¬ (nid = nid2 ∧ tid = tid2) := fun hh => h ⟨hh.1.symm, hh.2.symm⟩
    simp [mergeTaggedEdge, findEdge, h2]
  | e :: rest => by
    by_cases he : e.srcNid = nid ∧ e.tagId = tid
    · have hcond : ¬ (e.srcNid = nid2 ∧ e.tagId = tid2) := by
        rw [he.1, he.2]
        exact fun hh => h ⟨hh.1.symm, hh.2.symm⟩
      have h4 : ¬ (nid = nid2 ∧ tid = tid2) := fun hh => h ⟨hh.1.symm, hh.2.symm⟩
      simp [mergeTaggedEdge, he, findEdge, hcond, h4]
    · by_cases h2 : e.srcNid = nid2 ∧ e.tagId = tid2
      · have h4 : ¬ (nid2 = nid ∧ tid2 = tid) := h
        simp [mergeTaggedEdge, he, findEdge, h2, h4]
      · simp [mergeTaggedEdge, he, findEdge, h2,
              findEdge_mergeTaggedEdge_ne nid tid marker now nid2 tid2 h rest]

theorem findEdge_mergeTaggedEdge_self (nid : Nat) (tid : String) (marker now : Nat) :
    ∀ edges : List TaggedEdge, ∃ e2,
      findEdge (mergeTaggedEdge nid tid marker now edges) nid tid = some e2
      ∧ e2.srcNid = nid ∧ e2.tagId = tid ∧ e2.lastupdated = marker ∧ e2.firstseen = now
  | [] =>
    ⟨{ srcNid := nid, tagId := tid, lastupdated := marker, firstseen := now },
      by simp [mergeTaggedEdge, findEdge], rfl, rfl, rfl, rfl⟩
  | e :: rest => by
    by_cases he : e.srcNid = nid ∧ e.tagId = tid
    · refine ⟨{ e with lastupdated := marker, firstseen := now }, ?_, he.1, he.2, rfl, rfl⟩
      simp [mergeTaggedEdge, he, findEdge]
    · obtain ⟨e2, h1, h2, h3, h4, h5⟩ := findEdge_mergeTaggedEdge_self nid tid marker now rest
      refine ⟨e2, ?_, h2, h3, h4, h5⟩
      simp [mergeTaggedEdge, he, findEdge, h1]

theorem mergeTaggedEdge_keys_found (nid : Nat) (tid : String) (marker now : Nat) :
    ∀ (edges : List TaggedEdge) (e0 : TaggedEdge), findEdge edges nid tid = some e0 →
      (mergeTaggedEdge nid tid marker now edges).map edgeKey = edges.map edgeKey
  | [], e0, h => by simp [findEdge] at h
  | e :: rest, e0, h => by
    by_cases he : e.srcNid = nid ∧ e.tagId = tid
    · simp [mergeTaggedEdge, he, edgeKey]
    · rw [findEdge, if_neg he] at h
      simp [mergeTaggedEdge, he, mergeTaggedEdge_keys_found nid tid marker now rest e0 h]

theorem mergeTaggedEdge_keys_new (nid : Nat) (tid : String) (marker now : Nat) :
    ∀ edges : List TaggedEdge, findEdge edges nid tid = none →
      (mergeTaggedEdge nid tid marker now edges).map edgeKey = edges.map edgeKey ++ [(nid, tid)]
  | [], _ => by simp [mergeTaggedEdge, edgeKey]
  | e :: rest, h => by
    by_cases he : e.srcNid = nid ∧ e.tagId = tid
    · rw [findEdge, if_pos he] at h
      cases h
    · rw [findEdge, if_neg he] at h
      simp [mergeTaggedEdge, he, mergeTaggedEdge_keys_new nid tid marker now rest h]

theorem findEdge_eq_none (nid : Nat) (tid : String) :
    ∀ edges : List TaggedEdge, findEdge edges nid tid = none ↔ (nid, tid) ∉ edges.map edgeKey
  | [] => by simp [findEdge]
  | e :: rest => by
    by_cases he : e.srcNid = nid ∧ e.tagId = tid
    · simp [findEdge, he, edgeKey, he.1, he.2]
    · have h2 : ¬ ((nid, tid) = edgeKey e) := fun hh =>
        he ⟨(congrArg Prod.fst hh).symm, (congrArg Prod.snd hh).symm⟩
      simp [findEdge, he, findEdge_eq_none nid tid rest, h2]

theorem mergeTaggedEdge_nodup (nid : Nat) (tid : String) (marker now : Nat)
    (edges : List TaggedEdge) (h : (edges.map edgeKey).Nodup) :
    ((mergeTaggedEdge nid tid marker now edges).map edgeKey).Nodup := by
  cases hf : findEdge edges nid tid with
  | some e0 =>
    rw [mergeTaggedEdge_keys_found nid tid marker now edges e0 hf]
    exact h
  | none =>
    rw [mergeTaggedEdge_keys_new nid tid marker now edges hf]
    rw [List.nodup_append]
    refine ⟨h, List.nodup_singleton _, ?_⟩
    intro x hx hx2
    rw [List.mem_singleton] at hx2
    subst hx2
    exact (findEdge_eq_none nid tid edges).mp hf hx

/-! ## Fold lemmas over a flattened row list -/

theorem mergeStep_tags (region : String) (marker now : Nat) (g : Graph) (p : Nat × TagKV) :
    (mergeStep region marker now g p).tags = mergeTagNode p.2 region marker now g.tags := rfl

theorem mergeStep_edges (region : String) (marker now : Nat) (g : Graph) (p : Nat × TagKV) :
    (mergeStep region marker now g p).edges
      = mergeTaggedEdge p.1 (tagNodeId p.2) marker now g.edges := rfl

theorem foldl_mergeStep_resources (region : String) (marker now : Nat) :
    ∀ (rs : List (Nat × TagKV)) (g : Graph),
      (rs.foldl (mergeStep region marker now) g).resources = g.resources
  | [], _ => rfl
  | p :: rs, g => by
    rw [List.foldl_cons]
    exact foldl_mergeStep_resources region marker now rs (mergeStep region marker now g p)

/-- The step that processes a row establishes a freshly-stamped tag node. -/
theorem mergeStep_findTag_self (region : String) (marker now : Nat) (g : Graph) (p : Nat × TagKV) :
    ∃ n, findTag (mergeStep region marker now g p).tags (tagNodeId p.2) = some n
      ∧ n.lastupdated = marker := by
  cases hf : findTag g.tags (tagNodeId p.2) with
  | some n0 =>
    refine ⟨{ id := n0.id, key := p.2.Key, value := p.2.Value, region := region,
              lastupdated := marker, firstseen := n0.firstseen }, ?_, rfl⟩
    rw [mergeStep_tags]
    exact findTag_mergeTagNode_self_found p.2 region marker now g.tags n0 hf
  | none =>
    refine ⟨{ id := tagNodeId p.2, key := p.2.Key, value := p.2.Value, region := region,
              lastupdated := marker, firstseen := now }, ?_, rfl⟩
    rw [mergeStep_tags]
    exact findTag_mergeTagNode_self_new p.2 region marker now g.tags hf

/-- The step that processes a row establishes a freshly-stamped `TAGGED` edge
whose `firstseen` is the current clock value. -/
theorem mergeStep_findEdge_self (region : String) (marker now : Nat) (g : Graph) (p : Nat × TagKV) :
    ∃ e, findEdge (mergeStep region marker now g p).edges p.1 (tagNodeId p.2) = some e
      ∧ e.lastupdated = marker ∧ e.firstseen = now := by
  obtain ⟨e2, h1, _, _, h4, h5⟩ := findEdge_mergeTaggedEdge_self p.1 (tagNodeId p.2) marker now g.edges
  exact ⟨e2, by rw [mergeStep_edges]; exact h1, h4, h5⟩

theorem foldl_findTag_frame (region : String) (marker now : Nat) (tid : String) :
    ∀ (rs : List (Nat × TagKV)) (g : Graph), (∀ p ∈ rs, ¬ tagNodeId p.2 = tid) →
      findTag (rs.foldl (mergeStep region marker now) g).tags tid = findTag g.tags tid
  | [], _, _ => rfl
  | p :: rs, g, h => by
    rw [List.foldl_cons,
        foldl_findTag_frame region marker now tid rs _ (fun q hq => h q (List.mem_cons_of_mem p hq)),
        mergeStep_tags,
        findTag_mergeTagNode_ne p.2 region marker now tid
          (fun hh => h p (List.mem_cons_self p rs) hh.symm) g.tags]

theorem foldl_findTag_marker_preserved (region : String) (marker now : Nat) (tid : String) :
    ∀ (rs : List (Nat × TagKV)) (g : Graph),
      (∃ n, findTag g.tags tid = some n ∧ n.lastupdated = marker) →
      ∃ n, findTag (rs.foldl (mergeStep region marker now) g).tags tid = some n
        ∧ n.lastupdated = marker
  | [], _, h => h
  | p :: rs, g, h => by
    rw [List.foldl_cons]
    apply foldl_findTag_marker_preserved region marker now tid rs
    by_cases hp : tagNodeId p.2 = tid
    · subst hp
      exact mergeStep_findTag_self region marker now g p
    · obtain ⟨n, hn, hm⟩ := h
      refine ⟨n, ?_, hm⟩
      rw [mergeStep_tags,
          findTag_mergeTagNode_ne p.2 region marker now tid (fun hh => hp hh.symm) g.tags]
      exact hn

theorem foldl_findTag_touched (region : String) (marker now : Nat) (tid : String) :
    ∀ (rs : List (Nat × TagKV)) (g : Graph), (∃ p ∈ rs, tagNodeId p.2 = tid) →
      ∃ n, findTag (rs.foldl (mergeStep region marker now) g).tags tid = some n
        ∧ n.lastupdated = marker
  | [], _, h => absurd h (by simp)
  | p :: rs, g, h => by
    rw [List.foldl_cons]
    by_cases hp : tagNodeId p.2 = tid
    · apply foldl_findTag_marker_preserved region marker now tid rs
      subst hp
      exact mergeStep_findTag_self region marker now g p
    · obtain ⟨q, hq, hq2⟩ := h
      rcases List.mem_cons.mp hq with hqp | hqtl
      · rw [hqp] at hq2
        exact absurd hq2 hp
      · exact foldl_findTag_touched region marker now tid rs _ ⟨q, hqtl, hq2⟩

theorem foldl_findEdge_frame (region : String) (marker now : Nat) (nid : Nat) (tid : String) :
    ∀ (rs : List (Nat × TagKV)) (g : Graph),
      (∀ p ∈ rs, ¬ (p.1 = nid ∧ tagNodeId p.2 = tid)) →
      findEdge (rs.foldl (mergeStep region marker now) g).edges nid tid
        = findEdge g.edges nid tid
  | [], _, _ => rfl
  | p :: rs, g, h => by
    rw [List.foldl_cons,
        foldl_findEdge_frame region marker now nid tid rs _
          (fun q hq => h q (List.mem_cons_of_mem p hq)),
        mergeStep_edges,
        findEdge_mergeTaggedEdge_ne p.1 (tagNodeId p.2) marker now nid tid
          (fun hh => h p (List.mem_cons_self p rs) ⟨hh.1.symm, hh.2.symm⟩) g.edges]

theorem foldl_findEdge_marker_preserved (region : String) (marker now : Nat)
    (nid : Nat) (tid : String) :
    ∀ (rs : List (Nat × TagKV)) (g : Graph),
      (∃ e, findEdge g.edges nid tid = some e ∧ e.lastupdated = marker ∧ e.firstseen = now) →
      ∃ e, findEdge (rs.foldl (mergeStep region marker now) g).edges nid tid = some e
        ∧ e.lastupdated = marker ∧ e.firstseen = now
  | [], _, h => h
  | p :: rs, g, h => by
    rw [List.foldl_cons]
    apply foldl_findEdge_marker_preserved region marker now nid tid rs
    by_cases hp : p.1 = nid ∧ tagNodeId p.2 = tid
    · obtain ⟨hp1, hp2⟩ := hp
      subst hp1
      subst hp2
      exact mergeStep_findEdge_self region marker now g p
    · obtain ⟨e, he, hm, hfs⟩ := h
      refine ⟨e, ?_, hm, hfs⟩
      rw [mergeStep_edges,
          findEdge_mergeTaggedEdge_ne p.1 (tagNodeId p.2) marker now nid tid
            (fun hh => hp ⟨hh.1.symm, hh.2.symm⟩) g.edges]
      exact he

theorem foldl_findEdge_touched (region : String) (marker now : Nat) (nid : Nat) (tid : String) :
    ∀ (rs : List (Nat × TagKV)) (g : Graph),
      (∃ p ∈ rs, p.1 = nid ∧ tagNodeId p.2 = tid) →
      ∃ e, findEdge (rs.foldl (mergeStep region marker now) g).edges nid tid = some e
        ∧ e.lastupdated = marker ∧ e.firstseen = now
  | [], _, h => absurd h (by simp)
  | p :: rs, g, h => by
    rw [List.foldl_cons]
    by_cases hp : p.1 = nid ∧ tagNodeId p.2 = tid
    · apply foldl_findEdge_marker_preserved region marker now nid tid rs
      obtain ⟨hp1, hp2⟩ := hp
      subst hp1
      subst hp2
      exact mergeStep_findEdge_self region marker now g p
    · obtain ⟨q, hq, hq2⟩ := h
      rcases List.mem_cons.mp hq with hqp | hqtl
      · rw [hqp] at hq2
        exact absurd hq2 hp
      · exact foldl_findEdge_touched region marker now nid tid rs _ ⟨q, hqtl, hq2⟩

theorem foldl_tags_nodup (region : String) (marker now : Nat) :
    ∀ (rs : List (Nat × TagKV)) (g : Graph), ((g.tags.map (fun n => n.id)).Nodup) →
      (((rs.foldl (mergeStep region marker now) g).tags.map (fun n => n.id)).Nodup)
  | [], _, h => h
  | p :: rs, g, h => by
    rw [List.foldl_cons]
    apply foldl_tags_nodup region marker now rs
    rw [mergeStep_tags]
    exact mergeTagNode_nodup p.2 region marker now g.tags h

theorem foldl_edges_nodup (region : String) (marker now : Nat) :
    ∀ (rs : List (Nat × TagKV)) (g : Graph), ((g.edges.map edgeKey).Nodup) →
      (((rs.foldl (mergeStep region marker now) g).edges.map edgeKey).Nodup)
  | [], _, h => h
  | p :: rs, g, h => by
    rw [List.foldl_cons]
    apply foldl_edges_nodup region marker now rs
    rw [mergeStep_edges]
    exact mergeTaggedEdge_nodup p.1 (tagNodeId p.2) marker now g.edges h

/-- Through an arbitrary sequence of rows, a tag node's `firstseen` is either
untouched or — only when the node did not exist before — the current clock
value: this is the `ON CREATE SET aws_tag.firstseen = timestamp()` shape. -/
theorem foldl_firstseen (region : String) (marker now : Nat) (tid : String) :
    ∀ (rs : List (Nat × TagKV)) (g : Graph),
      (findTag (rs.foldl (mergeStep region marker now) g).tags tid).map (fun n => n.firstseen)
          = (findTag g.tags tid).map (fun n => n.firstseen)
      ∨ (findTag g.tags tid = none
         ∧ (findTag (rs.foldl (mergeStep region marker now) g).tags tid).map
             (fun n => n.firstseen) = some now)
  | [], _ => Or.inl rfl
  | p :: rs, g => by
    rw [List.foldl_cons]
    have hstep :
        (findTag (mergeStep region marker now g p).tags tid).map (fun n => n.firstseen)
            = (findTag g.tags tid).map (fun n => n.firstseen)
        ∨ (findTag g.tags tid = none
           ∧ (findTag (mergeStep region marker now g p).tags tid).map
               (fun n => n.firstseen) = some now) := by
      by_cases hp : tagNodeId p.2 = tid
      · subst hp
        cases hf : findTag g.tags (tagNodeId p.2) with
        | some n0 =>
          left
          rw [mergeStep_tags, findTag_mergeTagNode_self_found p.2 region marker now g.tags n0 hf]
          rfl
        | none =>
          right
          refine ⟨rfl, ?_⟩
          rw [mergeStep_tags, findTag_mergeTagNode_self_new p.2 region marker now g.tags hf]
          rfl
      · left
        rw [mergeStep_tags,
            findTag_mergeTagNode_ne p.2 region marker now tid (fun hh => hp hh.symm) g.tags]
    have hrec := foldl_firstseen region marker now tid rs (mergeStep region marker now g p)
    rcases hstep with h1 | ⟨h1, h2⟩
    · rcases hrec with h3 | ⟨h3, h4⟩
      · left
        rw [h3, h1]
      · right
        have h5 : Option.map (fun n => n.firstseen) (findTag g.tags tid) = none := by
          rw [← h1, h3]
          rfl
        exact ⟨Option.map_eq_none'.mp h5, h4⟩
    · rcases hrec with h3 | ⟨h3, h4⟩
      · right
        exact ⟨h1, h3.trans h2⟩
      · right
        rw [h3] at h2
        exact absurd h2 (by simp)

/-! ## `load_tags` as a fold over its flattened row list -/

theorem matchingResources_congr {g1 g2 : Graph} (h : g1.resources = g2.resources)
    (lab prop rid : String) :
    matchingResources g1 lab prop rid = matchingResources g2 lab prop rid := by
  unfold matchingResources
  rw [h]

theorem recordResources_congr {g1 g2 : Graph} (h : g1.resources = g2.resources)
    (lab prop : String) (tm : TagMapping) :
    recordResources g1 lab prop tm = recordResources g2 lab prop tm := by
  unfold recordResources
  cases tm.resource_id with
  | none => rfl
  | some rid => exact matchingResources_congr h lab prop rid

theorem tagRows_congr {g1 g2 : Graph} (h : g1.resources = g2.resources)
    (lab prop : String) (tm : TagMapping) (t : TagKV) :
    tagRows g1 lab prop tm t = tagRows g2 lab prop tm t := by
  unfold tagRows
  rw [recordResources_congr h]

theorem mappingRows_congr {g1 g2 : Graph} (h : g1.resources = g2.resources)
    (lab prop : String) (tm : TagMapping) :
    mappingRows g1 lab prop tm = mappingRows g2 lab prop tm := by
  unfold mappingRows
  congr 1
  funext t
  exact tagRows_congr h lab prop tm t

theorem rows_congr {g1 g2 : Graph} (h : g1.resources = g2.resources)
    (lab prop : String) (td : List TagMapping) :
    rows g1 lab prop td = rows g2 lab prop td := by
  unfold rows
  congr 1
  funext tm
  exact mappingRows_congr h lab prop tm

theorem processTag_eq_rows (lab prop region : String) (marker now : Nat) (tm : TagMapping)
    (t : TagKV) (g0 g : Graph) (h : g.resources = g0.resources) :
    processTag lab prop region marker now g tm t
      = (tagRows g0 lab prop tm t).foldl (mergeStep region marker now) g := by
  unfold processTag tagRows
  rw [List.foldl_map, ← recordResources_congr h lab prop tm]
  rfl

theorem foldl_processTag_eq_rows (lab prop region : String) (marker now : Nat) (tm : TagMapping)
    (g0 : Graph) :
    ∀ (ts : List TagKV) (g : Graph), g.resources = g0.resources →
      ts.foldl (fun g2 t => processTag lab prop region marker now g2 tm t) g
        = (ts.flatMap (fun t => tagRows g0 lab prop tm t)).foldl (mergeStep region marker now) g
  | [], _, _ => rfl
  | t :: ts, g, h => by
    rw [List.foldl_cons, List.flatMap_cons, List.foldl_append,
        processTag_eq_rows lab prop region marker now tm t g0 g h]
    exact foldl_processTag_eq_rows lab prop region marker now tm g0 ts _
      (by rw [foldl_mergeStep_resources]; exact h)

theorem processMapping_eq_rows (lab prop region : String) (marker now : Nat) (tm : TagMapping)
    (g0 g : Graph) (h : g.resources = g0.resources) :
    processMapping lab prop region marker now g tm
      = (mappingRows g0 lab prop tm).foldl (mergeStep region marker now) g :=
  foldl_processTag_eq_rows lab prop region marker now tm g0 tm.Tags g h

theorem foldl_processMapping_eq_rows (lab prop region : String) (marker now : Nat) (g0 : Graph) :
    ∀ (td : List TagMapping) (g : Graph), g.resources = g0.resources →
      td.foldl (fun g2 tm => processMapping lab prop region marker now g2 tm) g
        = (td.flatMap (fun tm => mappingRows g0 lab prop tm)).foldl (mergeStep region marker now) g
  | [], _, _ => rfl
  | tm :: td, g, h => by
    rw [List.foldl_cons, List.flatMap_cons, List.foldl_append,
        processMapping_eq_rows lab prop region marker now tm g0 g h]
    exact foldl_processMapping_eq_rows lab prop region marker now g0 td _
      (by rw [foldl_mergeStep_resources]; exact h)

/-- `loadTagsWith` is exactly the fold of the elementary upserts over the
batch's flattened row list. -/
theorem loadTagsWith_eq_rows (g : Graph) (td : List TagMapping) (lab prop region : String)
    (marker now : Nat) :
    loadTagsWith g td lab prop region marker now
      = (rows g lab prop td).foldl (mergeStep region marker now) g :=
  foldl_processMapping_eq_rows lab prop region marker now g td g rfl

/-- `load_tags` never writes a resource node. -/
theorem loadTagsWith_resources (g : Graph) (td : List TagMapping) (lab prop region : String)
    (marker now : Nat) :
    (loadTagsWith g td lab prop region marker now).resources = g.resources := by
  rw [loadTagsWith_eq_rows]
  exact foldl_mergeStep_resources region marker now (rows g lab prop td) g

theorem mem_touchedTagIds (g : Graph) (lab prop : String) (td : List TagMapping) (tid : String) :
    tid ∈ touchedTagIds g lab prop td ↔ ∃ p ∈ rows g lab prop td, tagNodeId p.2 = tid := by
  unfold touchedTagIds
  simp [List.mem_map]

theorem mem_touchedEdgeKeys (g : Graph) (lab prop : String) (td : List TagMapping)
    (nid : Nat) (tid : String) :
    (nid, tid) ∈ touchedEdgeKeys g lab prop td
      ↔ ∃ p ∈ rows g lab prop td, p.1 = nid ∧ tagNodeId p.2 = tid := by
  unfold touchedEdgeKeys
  simp [List.mem_map, Prod.ext_iff]

/-! ## Claim C6: identifier normalization -/

/-- C6: the normalizer for kind `ec2:instance` maps
`arn:aws:ec2:us-east-1:acct:instance/i-1337` to `i-1337`, the normalizer for
kind `s3` maps `arn:aws:s3:::my-bucket` to `my-bucket`, and on any input with
no occurrence of the kind's separator character each normalizer returns the
input unchanged (and, being total functions, they never fail). -/
theorem claim_identifier_normalization (s t : String)
    (h1 : ('/' : Char) ∉ s.data) (h2 : (':' : Char) ∉ t.data) :
    get_short_id_from_ec2_arn "arn:aws:ec2:us-east-1:acct:instance/i-1337" = "i-1337"
    ∧ get_bucket_name_from_arn "arn:aws:s3:::my-bucket" = "my-bucket"
    ∧ get_short_id_from_ec2_arn s = s
    ∧ get_bucket_name_from_arn t = t :=
  ⟨by decide, by decide, get_short_id_no_sep s h1, get_bucket_name_no_sep t h2⟩

/-- Witness for C6 at `s := "i-1337"`, `t := "my-bucket"`. -/
theorem claim_identifier_normalization_witness :
    get_short_id_from_ec2_arn "arn:aws:ec2:us-east-1:acct:instance/i-1337" = "i-1337"
    ∧ get_bucket_name_from_arn "arn:aws:s3:::my-bucket" = "my-bucket"
    ∧ get_short_id_from_ec2_arn "i-1337" = "i-1337"
    ∧ get_bucket_name_from_arn "my-bucket" = "my-bucket" :=
  claim_identifier_normalization "i-1337" "my-bucket" (by decide) (by decide)

/-! ## Claim C7: default identity for kinds without `id_func` -/

/-- C7: for every resource kind whose mapping entry has no `id_func`,
`compute_resource_id` returns the record's raw `ResourceARN` verbatim. -/
theorem claim_default_identity (resource_type : String) (m : TypeMapping) (tm : TagMapping)
    (h1 : findMapping resource_type = some m) (h2 : m.id_func = none) :
    compute_resource_id tm resource_type = some tm.ResourceARN := by
  have h3 : compute_resource_id tm resource_type
      = (match m.id_func with
         | some f => some (f tm.ResourceARN)
         | none => some tm.ResourceARN) := by
    unfold compute_resource_id
    rw [h1]
  rw [h3, h2]

/-- Witness for C7 at kind `es:domain` (an entry with no `id_func`). -/
theorem claim_default_identity_witness :
    compute_resource_id
        { ResourceARN := "arn:aws:es:us-east-1:000000000000:domain/test", Tags := [] }
        "es:domain"
      = some "arn:aws:es:us-east-1:000000000000:domain/test" :=
  claim_default_identity "es:domain" { label := "ESDomain", property := "id" }
    { ResourceARN := "arn:aws:es:us-east-1:000000000000:domain/test", Tags := [] }
    (by rfl) (by rfl)

/-! ## Claim C10: `transform_tags` writes exactly `resource_id` -/

theorem transform_tags_eq_map (resource_type : String) (m : TypeMapping)
    (h : findMapping resource_type = some m) :
    ∀ td : List TagMapping,
      transform_tags td resource_type
        = some (td.map (fun tm =>
            { tm with resource_id := compute_resource_id tm resource_type }))
  | [] => rfl
  | tm :: rest => by
    have hc : ∃ rid, compute_resource_id tm resource_type = some rid := by
      have h3 : compute_resource_id tm resource_type
          = (match m.id_func with
             | some f => some (f tm.ResourceARN)
             | none => some tm.ResourceARN) := by
        unfold compute_resource_id
        rw [h]
      rw [h3]
      cases m.id_func with
      | none => exact ⟨tm.ResourceARN, rfl⟩
      | some f => exact ⟨f tm.ResourceARN, rfl⟩
    obtain ⟨rid, hrid⟩ := hc
    show (match compute_resource_id tm resource_type, transform_tags rest resource_type with
          | some rid2, some rest2 => some ({ tm with resource_id := some rid2 } :: rest2)
          | _, _ => none) = _
    rw [hrid, transform_tags_eq_map resource_type m h rest, List.map_cons, hrid]

/-- C10: for every batch and every kind in the mapping table,
`transform_tags` succeeds, preserves the number and order of the records,
leaves `ResourceARN` and `Tags` of every record unchanged, and sets exactly
the `resource_id` field to `compute_resource_id` of that record. -/
theorem claim_transform_frame (td : List TagMapping) (resource_type : String) (m : TypeMapping)
    (h : findMapping resource_type = some m) :
    ∃ out, transform_tags td resource_type = some out
      ∧ out.length = td.length
      ∧ ∀ i : Fin td.length, ∃ hi : i.val < out.length,
          (out.get ⟨i.val, hi⟩).ResourceARN = (td.get i).ResourceARN
          ∧ (out.get ⟨i.val, hi⟩).Tags = (td.get i).Tags
          ∧ (out.get ⟨i.val, hi⟩).resource_id = compute_resource_id (td.get i) resource_type := by
  refine ⟨td.map (fun tm => { tm with resource_id := compute_resource_id tm resource_type }),
          transform_tags_eq_map resource_type m h td, by simp, ?_⟩
  intro i
  refine ⟨by simp [i.isLt], ?_, ?_, ?_⟩ <;>
    · rw [List.get_map]

/-- Witness for C10 at a one-record `s3` batch. -/
theorem claim_transform_frame_witness :
    ∃ out, transform_tags [{ ResourceARN := "arn:aws:s3:::b1", Tags := [{ Key := "k", Value := "v" }] }] "s3" = some out
      ∧ out.length = [({ ResourceARN := "arn:aws:s3:::b1", Tags := [{ Key := "k", Value := "v" }] } : TagMapping)].length
      ∧ ∀ i : Fin [({ ResourceARN := "arn:aws:s3:::b1", Tags := [{ Key := "k", Value := "v" }] } : TagMapping)].length,
          ∃ hi : i.val < out.length,
          (out.get ⟨i.val, hi⟩).ResourceARN
              = ([({ ResourceARN := "arn:aws:s3:::b1", Tags := [{ Key := "k", Value := "v" }] } : TagMapping)].get i).ResourceARN
          ∧ (out.get ⟨i.val, hi⟩).Tags
              = ([({ ResourceARN := "arn:aws:s3:::b1", Tags := [{ Key := "k", Value := "v" }] } : TagMapping)].get i).Tags
          ∧ (out.get ⟨i.val, hi⟩).resource_id
              = compute_resource_id ([({ ResourceARN := "arn:aws:s3:::b1", Tags := [{ Key := "k", Value := "v" }] } : TagMapping)].get i) "s3" :=
  claim_transform_frame
    [{ ResourceARN := "arn:aws:s3:::b1", Tags := [{ Key := "k", Value := "v" }] }] "s3"
    { label := "S3Bucket", property := "id", id_func := some get_bucket_name_from_arn }
    (by rfl)

/-! ## Claim C3: cleanup runs after every merge pass of the run -/

theorem foldl_append_singleton {α β : Type} (f : α → β) :
    ∀ (l : List α) (acc : List β), l.foldl (fun a x => a ++ [f x]) acc = acc ++ l.map f
  | [], acc => by simp
  | x :: l, acc => by
    rw [List.foldl_cons, foldl_append_singleton f l (acc ++ [f x])]
    simp

theorem foldl_append_flatMap {α β : Type} (g : α → List β) :
    ∀ (l : List α) (acc : List β), l.foldl (fun a x => a ++ g x) acc = acc ++ l.flatMap g
  | [], acc => by simp
  | x :: l, acc => by
    rw [List.foldl_cons, foldl_append_flatMap g l (acc ++ g x)]
    simp

theorem merge_phase_eq (regions : List String) :
    merge_phase regions
      = regions.flatMap (fun region =>
          resourceTypeKeys.map (fun rt => SyncEvent.merge region rt)) := by
  have h1 : merge_phase regions
      = regions.foldl
          (fun acc region => acc ++ resourceTypeKeys.map (fun rt => SyncEvent.merge region rt))
          [] := by
    unfold merge_phase
    congr 1
    funext acc region
    exact foldl_append_singleton (fun rt => SyncEvent.merge region rt) resourceTypeKeys acc
  rw [h1, foldl_append_flatMap]
  simp

/-- C3: in the trace of `sync`, every (region, resource kind) pair of the run
has its merge pass strictly before the cleanup event, the cleanup event is
the final event, and no cleanup event occurs anywhere among the merge
passes. -/
theorem claim_sync_cleanup_last (regions : List String) (region resource_type : String)
    (h1 : region ∈ regions) (h2 : resource_type ∈ resourceTypeKeys) :
    ∃ pre post, sync_trace regions = pre ++ SyncEvent.cleanupEvent :: post
      ∧ SyncEvent.merge region resource_type ∈ pre
      ∧ SyncEvent.cleanupEvent ∉ pre ∧ post = [] := by
  refine ⟨merge_phase regions, [], rfl, ?_, ?_, rfl⟩
  · rw [merge_phase_eq, List.mem_flatMap]
    exact ⟨region, h1, List.mem_map.mpr ⟨resource_type, h2, rfl⟩⟩
  · rw [merge_phase_eq, List.mem_flatMap]
    rintro ⟨r2, _, hm⟩
    rw [List.mem_map] at hm
    obtain ⟨rt2, _, heq⟩ := hm
    exact SyncEvent.noConfusion heq

/-- Witness for C3 at `regions := ["us-east-1"]`, kind `s3`. -/
theorem claim_sync_cleanup_last_witness :
    ∃ pre post, sync_trace ["us-east-1"] = pre ++ SyncEvent.cleanupEvent :: post
      ∧ SyncEvent.merge "us-east-1" "s3" ∈ pre
      ∧ SyncEvent.cleanupEvent ∉ pre ∧ post = [] :=
  claim_sync_cleanup_last ["us-east-1"] "us-east-1" "s3" (by decide) (by decide)

/-! ## Claim C4: cleanup deletes exactly the stale edges and orphaned tags -/

/-- C4: running cleanup with current marker `v` keeps an existing `TAGGED`
edge iff its marker equals `v`, keeps an existing tag node iff some edge at
marker `v` still references it (every surviving element is the unchanged
original), and never touches resource nodes. -/
theorem claim_cleanup_correct (g : Graph) (v : Nat) (e : TaggedEdge) (n : TagNode)
    (he : e ∈ g.edges) (hn : n ∈ g.tags) :
    (e ∈ (cleanup g v).edges ↔ e.lastupdated = v)
    ∧ (n ∈ (cleanup g v).tags ↔ ∃ e2 ∈ g.edges, e2.lastupdated = v ∧ e2.tagId = n.id)
    ∧ (cleanup g v).resources = g.resources := by
  unfold cleanup
  refine ⟨?_, ?_, rfl⟩
  · simp [List.mem_filter, he]
  · simp only [List.mem_filter, List.any_eq_true]
    constructor
    · rintro ⟨_, e2, he2, heq⟩
      exact ⟨e2, he2.1, by simpa using he2.2, by simpa using heq⟩
    · rintro ⟨e2, he2, hlast, htag⟩
      exact ⟨hn, e2, ⟨he2, by simpa using hlast⟩, by simpa using htag⟩

/-- Witness for C4 at the spec's scenario: three edges at marker 1, two at
marker 2, cleanup with marker 2. -/
theorem claim_cleanup_correct_witness :
    ((⟨1, "a:1", 1, 10⟩ : TaggedEdge)
        ∈ (cleanup
            ⟨[], [⟨"a:1", "a", "1", "r", 1, 10⟩, ⟨"b:2", "b", "2", "r", 2, 10⟩],
             [⟨1, "a:1", 1, 10⟩, ⟨2, "a:1", 1, 10⟩, ⟨3, "a:1", 1, 10⟩,
              ⟨4, "b:2", 2, 10⟩, ⟨5, "b:2", 2, 10⟩]⟩ 2).edges
      ↔ (⟨1, "a:1", 1, 10⟩ : TaggedEdge).lastupdated = 2)
    ∧ ((⟨"a:1", "a", "1", "r", 1, 10⟩ : TagNode)
        ∈ (cleanup
            ⟨[], [⟨"a:1", "a", "1", "r", 1, 10⟩, ⟨"b:2", "b", "2", "r", 2, 10⟩],
             [⟨1, "a:1", 1, 10⟩, ⟨2, "a:1", 1, 10⟩, ⟨3, "a:1", 1, 10⟩,
              ⟨4, "b:2", 2, 10⟩, ⟨5, "b:2", 2, 10⟩]⟩ 2).tags
      ↔ ∃ e2 ∈ [(⟨1, "a:1", 1, 10⟩ : TaggedEdge), ⟨2, "a:1", 1, 10⟩, ⟨3, "a:1", 1, 10⟩,
                 ⟨4, "b:2", 2, 10⟩, ⟨5, "b:2", 2, 10⟩],
          e2.lastupdated = 2 ∧ e2.tagId = (⟨"a:1", "a", "1", "r", 1, 10⟩ : TagNode).id)
    ∧ (cleanup
          ⟨[], [⟨"a:1", "a", "1", "r", 1, 10⟩, ⟨"b:2", "b", "2", "r", 2, 10⟩],
           [⟨1, "a:1", 1, 10⟩, ⟨2, "a:1", 1, 10⟩, ⟨3, "a:1", 1, 10⟩,
            ⟨4, "b:2", 2, 10⟩, ⟨5, "b:2", 2, 10⟩]⟩ 2).resources
        = ([] : List ResourceNode) :=
  claim_cleanup_correct
    ⟨[], [⟨"a:1", "a", "1", "r", 1, 10⟩, ⟨"b:2", "b", "2", "r", 2, 10⟩],
     [⟨1, "a:1", 1, 10⟩, ⟨2, "a:1", 1, 10⟩, ⟨3, "a:1", 1, 10⟩,
      ⟨4, "b:2", 2, 10⟩, ⟨5, "b:2", 2, 10⟩]⟩ 2
    ⟨1, "a:1", 1, 10⟩ ⟨"a:1", "a", "1", "r", 1, 10⟩ (by decide) (by decide)

/-! ## Claim C9: explicit deny suppresses the derived edge -/

/-- C9: whenever any statement of a principal has effect deny and matches a
rule and a resource, the inference engine emits no derived edge for that
(principal, resource, edge-name) triple — whatever allow statements exist
and wherever the deny statement sits in the list. -/
theorem claim_deny_precedence (principals : List Principal) (rules : List RelationshipRule)
    (resources2 : List CandidateResource) (p : Principal) (rule : RelationshipRule)
    (res : CandidateResource) (st : PolicyStatement)
    (hst : st ∈ p.statements) (hd : st.effect = Effect.deny)
    (hm : stmtMatches st rule res = true)
    (hp : ∀ q ∈ principals, q.name = p.name → q = p)
    (hr : ∀ r2 ∈ rules, r2.edge_name = rule.edge_name → r2 = rule)
    (hz : ∀ z ∈ resources2, z.rid = res.rid → z = res) :
    (p.name, res.rid, rule.edge_name) ∉ inferEdges principals rules resources2 := by
  intro hmem
  unfold inferEdges at hmem
  rw [List.mem_flatMap] at hmem
  obtain ⟨rule2, hrule2, hmem⟩ := hmem
  rw [List.mem_flatMap] at hmem
  obtain ⟨p2, hp2, hmem⟩ := hmem
  rw [List.mem_filterMap] at hmem
  obtain ⟨r2, hr2, hif⟩ := hmem
  rw [List.mem_filter] at hr2
  by_cases hgrant : principalGrants p2 rule2 r2 = true
  · rw [if_pos hgrant] at hif
    have hname : p2.name = p.name := congrArg Prod.fst (Option.some.inj hif)
    have hrid : r2.rid = res.rid := congrArg Prod.fst (congrArg Prod.snd (Option.some.inj hif))
    have hedge : rule2.edge_name = rule.edge_name :=
      congrArg Prod.snd (congrArg Prod.snd (Option.some.inj hif))
    have hp2p : p2 = p := hp p2 hp2 hname
    have hr2r : r2 = res := hz r2 hr2.1 hrid
    have hrule2r : rule2 = rule := hr rule2 hrule2 hedge
    rw [hp2p, hr2r, hrule2r] at hgrant
    unfold principalGrants at hgrant
    rw [Bool.and_eq_true] at hgrant
    have hdeny : (p.statements.any fun st2 => st2.effect == Effect.deny && stmtMatches st2 rule res) = true := by
      rw [List.any_eq_true]
      exact ⟨st, hst, by rw [Bool.and_eq_true]; exact ⟨by rw [hd]; rfl, hm⟩⟩
    rw [hdeny] at hgrant
    exact absurd hgrant.2 (by decide)
  · rw [if_neg hgrant] at hif
    exact Option.noConfusion hif

/-- Witness for C9 at the spec's example: an allow and a deny statement both
matching `s3:GetObject` on `arn:aws:s3:::bucket/*` yield no `CAN_READ`
edge. -/
theorem claim_deny_precedence_witness :
    ("alice", "arn:aws:s3:::bucket/data", "CAN_READ")
      ∉ inferEdges
          [⟨"alice",
            [⟨Effect.allow, ["s3:GetObject"], ["arn:aws:s3:::bucket/*"]⟩,
             ⟨Effect.deny, ["s3:GetObject"], ["arn:aws:s3:::bucket/*"]⟩]⟩]
          [⟨"S3Bucket", ["s3:GetObject"], "CAN_READ"⟩]
          [⟨"S3Bucket", "arn:aws:s3:::bucket/data"⟩] :=
  claim_deny_precedence
    [⟨"alice",
      [⟨Effect.allow, ["s3:GetObject"], ["arn:aws:s3:::bucket/*"]⟩,
       ⟨Effect.deny, ["s3:GetObject"], ["arn:aws:s3:::bucket/*"]⟩]⟩]
    [⟨"S3Bucket", ["s3:GetObject"], "CAN_READ"⟩]
    [⟨"S3Bucket", "arn:aws:s3:::bucket/data"⟩]
    ⟨"alice",
     [⟨Effect.allow, ["s3:GetObject"], ["arn:aws:s3:::bucket/*"]⟩,
      ⟨Effect.deny, ["s3:GetObject"], ["arn:aws:s3:::bucket/*"]⟩]⟩
    ⟨"S3Bucket", ["s3:GetObject"], "CAN_READ"⟩
    ⟨"S3Bucket", "arn:aws:s3:::bucket/data"⟩
    ⟨Effect.deny, ["s3:GetObject"], ["arn:aws:s3:::bucket/*"]⟩
    (by decide) (by decide) (by decide) (by decide) (by decide) (by decide)

/-! ## Claim C5: silent skip of records with no matching resource -/

/-- C5: a record whose normalized `resource_id` matches no existing resource
node of the kind contributes no write at all: the merge of the batch equals
the merge of the batch with that record removed, and no resource node is
created; the functions are total, so no error is raised, and the remaining
records are processed as usual. -/
theorem claim_silent_skip (g : Graph) (td1 td2 : List TagMapping) (tm : TagMapping)
    (lab prop region : String) (marker now : Nat) (rid : String)
    (h1 : tm.resource_id = some rid)
    (h2 : matchingResources g lab prop rid = []) :
    loadTagsWith g (td1 ++ tm :: td2) lab prop region marker now
      = loadTagsWith g (td1 ++ td2) lab prop region marker now
    ∧ (loadTagsWith g (td1 ++ tm :: td2) lab prop region marker now).resources = g.resources := by
  refine ⟨?_, loadTagsWith_resources g (td1 ++ tm :: td2) lab prop region marker now⟩
  have hr : recordResources g lab prop tm = [] := by
    unfold recordResources
    rw [h1]
    exact h2
  have hmr : mappingRows g lab prop tm = [] := by
    have ht : ∀ t, tagRows g lab prop tm t = [] := by
      intro t
      unfold tagRows
      rw [hr]
      rfl
    unfold mappingRows
    simp [ht]
  rw [loadTagsWith_eq_rows, loadTagsWith_eq_rows]
  unfold rows
  rw [List.flatMap_append, List.flatMap_append, List.flatMap_cons, hmr]
  simp

/-- Witness for C5: a batch holding one unmatched record and one matched
record merges exactly as the batch holding only the matched record. -/
theorem claim_silent_skip_witness :
    loadTagsWith ⟨[⟨0, "S3Bucket", "id", "b1"⟩], [], []⟩
        ([] ++ (⟨"arn:aws:s3:::missing", [⟨"k", "v"⟩], some "missing"⟩ : TagMapping)
          :: [⟨"arn:aws:s3:::b1", [⟨"k", "v"⟩], some "b1"⟩]) "S3Bucket" "id" "us-east-1" 100 1000
      = loadTagsWith ⟨[⟨0, "S3Bucket", "id", "b1"⟩], [], []⟩
          ([] ++ [⟨"arn:aws:s3:::b1", [⟨"k", "v"⟩], some "b1"⟩]) "S3Bucket" "id" "us-east-1" 100 1000
    ∧ (loadTagsWith ⟨[⟨0, "S3Bucket", "id", "b1"⟩], [], []⟩
        ([] ++ (⟨"arn:aws:s3:::missing", [⟨"k", "v"⟩], some "missing"⟩ : TagMapping)
          :: [⟨"arn:aws:s3:::b1", [⟨"k", "v"⟩], some "b1"⟩]) "S3Bucket" "id" "us-east-1" 100
        1000).resources
      = (⟨[⟨0, "S3Bucket", "id", "b1"⟩], [], []⟩ : Graph).resources :=
  claim_silent_skip ⟨[⟨0, "S3Bucket", "id", "b1"⟩], [], []⟩ []
    [⟨"arn:aws:s3:::b1", [⟨"k", "v"⟩], some "b1"⟩]
    ⟨"arn:aws:s3:::missing", [⟨"k", "v"⟩], some "missing"⟩ "S3Bucket" "id" "us-east-1" 100 1000
    "missing" (by rfl) (by rfl)

/-! ## Claim C8: a tag node's `firstseen` is written only at creation -/

/-- C8: after any merge pass, every tag node's `firstseen` equals its value
before the pass when the node already existed, and the pass's clock value
when the pass created it — so `firstseen` is set exactly once, at the merge
that creates the node, whatever the batch, region or marker. -/
theorem claim_firstseen_set_once (g : Graph) (td : List TagMapping) (lab prop region : String)
    (marker now : Nat) (tid : String) (n2 : TagNode)
    (h : findTag (loadTagsWith g td lab prop region marker now).tags tid = some n2) :
    n2.firstseen = (match findTag g.tags tid with
                    | some n => n.firstseen
                    | none => now) := by
  have hf := foldl_firstseen region marker now tid (rows g lab prop td) g
  rw [← loadTagsWith_eq_rows] at hf
  rcases hf with h1 | ⟨h1, h2⟩
  · rw [h] at h1
    cases hg : findTag g.tags tid with
    | some n0 =>
      rw [hg] at h1
      simp at h1
      exact h1
    | none =>
      rw [hg] at h1
      simp at h1
  · rw [h] at h2
    simp at h2
    rw [h1]
    exact h2

/-- Witness for C8: a tag node first seen at clock 7 keeps `firstseen = 7`
through a later merge running at clock 99 with marker 101. -/
theorem claim_firstseen_set_once_witness :
    (⟨"env:prod", "env", "prod", "us-east-1", 101, 7⟩ : TagNode).firstseen
      = (match findTag (⟨[⟨0, "EC2Instance", "id", "i-1"⟩],
                        [⟨"env:prod", "env", "prod", "us-west-2", 50, 7⟩], []⟩ : Graph).tags
               "env:prod" with
         | some n => n.firstseen
         | none => 99) :=
  claim_firstseen_set_once
    ⟨[⟨0, "EC2Instance", "id", "i-1"⟩], [⟨"env:prod", "env", "prod", "us-west-2", 50, 7⟩], []⟩
    [⟨"arn", [⟨"env", "prod"⟩], some "i-1"⟩] "EC2Instance" "id" "us-east-1" 101 99 "env:prod"
    ⟨"env:prod", "env", "prod", "us-east-1", 101, 7⟩ (by decide)

/-! ## Claim C2: monotonic refresh with a new marker -/

/-- C2: re-merging a batch with a new marker `v2` over the state left by the
same batch at marker `v1` stamps `lastupdated = v2` on exactly the tag nodes
and `TAGGED` edges touched by the batch, leaves every untouched node and
edge exactly as the first merge left it, and (given a duplicate-free store)
creates no duplicate node or edge for an already-present pair. -/
theorem claim_monotonic_refresh (g : Graph) (td : List TagMapping) (lab prop region : String)
    (v1 t1 v2 t2 : Nat) (tid : String) (nid : Nat)
    (hT : (g.tags.map (fun n => n.id)).Nodup)
    (hE : (g.edges.map edgeKey).Nodup) :
    (tid ∈ touchedTagIds g lab prop td →
       ∃ n, findTag (loadTagsWith (loadTagsWith g td lab prop region v1 t1) td lab prop region
              v2 t2).tags tid = some n
         ∧ n.lastupdated = v2)
    ∧ (tid ∉ touchedTagIds g lab prop td →
       findTag (loadTagsWith (loadTagsWith g td lab prop region v1 t1) td lab prop region
           v2 t2).tags tid
         = findTag (loadTagsWith g td lab prop region v1 t1).tags tid)
    ∧ ((nid, tid) ∈ touchedEdgeKeys g lab prop td →
       ∃ e, findEdge (loadTagsWith (loadTagsWith g td lab prop region v1 t1) td lab prop region
              v2 t2).edges nid tid = some e
         ∧ e.lastupdated = v2)
    ∧ ((nid, tid) ∉ touchedEdgeKeys g lab prop td →
       findEdge (loadTagsWith (loadTagsWith g td lab prop region v1 t1) td lab prop region
           v2 t2).edges nid tid
         = findEdge (loadTagsWith g td lab prop region v1 t1).edges nid tid)
    ∧ ((loadTagsWith (loadTagsWith g td lab prop region v1 t1) td lab prop region
          v2 t2).tags.map (fun n => n.id)).Nodup
    ∧ ((loadTagsWith (loadTagsWith g td lab prop region v1 t1) td lab prop region
          v2 t2).edges.map edgeKey).Nodup := by
  have hres : (loadTagsWith g td lab prop region v1 t1).resources = g.resources :=
    loadTagsWith_resources g td lab prop region v1 t1
  have hrows : rows (loadTagsWith g td lab prop region v1 t1) lab prop td = rows g lab prop td :=
    rows_congr hres lab prop td
  have heq2 : loadTagsWith (loadTagsWith g td lab prop region v1 t1) td lab prop region v2 t2
      = (rows g lab prop td).foldl (mergeStep region v2 t2)
          (loadTagsWith g td lab prop region v1 t1) := by
    rw [loadTagsWith_eq_rows, hrows]
  refine ⟨?_, ?_, ?_, ?_, ?_, ?_⟩
  · intro ht
    rw [heq2]
    exact foldl_findTag_touched region v2 t2 tid (rows g lab prop td) _
      ((mem_touchedTagIds g lab prop td tid).mp ht)
  · intro ht
    rw [heq2]
    apply foldl_findTag_frame
    intro p hp hpt
    exact ht ((mem_touchedTagIds g lab prop td tid).mpr ⟨p, hp, hpt⟩)
  · intro ht
    rw [heq2]
    obtain ⟨e, ha, hb, _⟩ := foldl_findEdge_touched region v2 t2 nid tid (rows g lab prop td) _
      ((mem_touchedEdgeKeys g lab prop td nid tid).mp ht)
    exact ⟨e, ha, hb⟩
  · intro ht
    rw [heq2]
    apply foldl_findEdge_frame
    intro p hp hpt
    exact ht ((mem_touchedEdgeKeys g lab prop td nid tid).mpr ⟨p, hp, hpt⟩)
  · rw [heq2]
    apply foldl_tags_nodup
    rw [loadTagsWith_eq_rows]
    exact foldl_tags_nodup region v1 t1 (rows g lab prop td) g hT
  · rw [heq2]
    apply foldl_edges_nodup
    rw [loadTagsWith_eq_rows]
    exact foldl_edges_nodup region v1 t1 (rows g lab prop td) g hE

/-- Witness for C2 at a one-resource, one-tag batch, `v1 = 100`,
`v2 = 200`. -/
theorem claim_monotonic_refresh_witness :
    (("env:prod" : String) ∈ touchedTagIds ⟨[⟨0, "EC2Instance", "id", "i-1"⟩], [], []⟩
        "EC2Instance" "id" [⟨"arn", [⟨"env", "prod"⟩], some "i-1"⟩] →
       ∃ n, findTag (loadTagsWith (loadTagsWith ⟨[⟨0, "EC2Instance", "id", "i-1"⟩], [], []⟩
              [⟨"arn", [⟨"env", "prod"⟩], some "i-1"⟩] "EC2Instance" "id" "us-east-1" 100 1000)
              [⟨"arn", [⟨"env", "prod"⟩], some "i-1"⟩] "EC2Instance" "id" "us-east-1"
              200 2000).tags "env:prod" = some n
         ∧ n.lastupdated = 200)
    ∧ (("env:prod" : String) ∉ touchedTagIds ⟨[⟨0, "EC2Instance", "id", "i-1"⟩], [], []⟩
        "EC2Instance" "id" [⟨"arn", [⟨"env", "prod"⟩], some "i-1"⟩] →
       findTag (loadTagsWith (loadTagsWith ⟨[⟨0, "EC2Instance", "id", "i-1"⟩], [], []⟩
           [⟨"arn", [⟨"env", "prod"⟩], some "i-1"⟩] "EC2Instance" "id" "us-east-1" 100 1000)
           [⟨"arn", [⟨"env", "prod"⟩], some "i-1"⟩] "EC2Instance" "id" "us-east-1"
           200 2000).tags "env:prod"
         = findTag (loadTagsWith ⟨[⟨0, "EC2Instance", "id", "i-1"⟩], [], []⟩
             [⟨"arn", [⟨"env", "prod"⟩], some "i-1"⟩] "EC2Instance" "id" "us-east-1"
             100 1000).tags "env:prod")
    ∧ (((0 : Nat), ("env:prod" : String)) ∈ touchedEdgeKeys
          ⟨[⟨0, "EC2Instance", "id", "i-1"⟩], [], []⟩
          "EC2Instance" "id" [⟨"arn", [⟨"env", "prod"⟩], some "i-1"⟩] →
       ∃ e, findEdge (loadTagsWith (loadTagsWith ⟨[⟨0, "EC2Instance", "id", "i-1"⟩], [], []⟩
              [⟨"arn", [⟨"env", "prod"⟩], some "i-1"⟩] "EC2Instance" "id" "us-east-1" 100 1000)
              [⟨"arn", [⟨"env", "prod"⟩], some "i-1"⟩] "EC2Instance" "id" "us-east-1"
              200 2000).edges 0 "env:prod" = some e
         ∧ e.lastupdated = 200)
    ∧ (((0 : Nat), ("env:prod" : String)) ∉ touchedEdgeKeys
          ⟨[⟨0, "EC2Instance", "id", "i-1"⟩], [], []⟩
          "EC2Instance" "id" [⟨"arn", [⟨"env", "prod"⟩], some "i-1"⟩] →
       findEdge (loadTagsWith (loadTagsWith ⟨[⟨0, "EC2Instance", "id", "i-1"⟩], [], []⟩
           [⟨"arn", [⟨"env", "prod"⟩], some "i-1"⟩] "EC2Instance" "id" "us-east-1" 100 1000)
           [⟨"arn", [⟨"env", "prod"⟩], some "i-1"⟩] "EC2Instance" "id" "us-east-1"
           200 2000).edges 0 "env:prod"
         = findEdge (loadTagsWith ⟨[⟨0, "EC2Instance", "id", "i-1"⟩], [], []⟩
             [⟨"arn", [⟨"env", "prod"⟩], some "i-1"⟩] "EC2Instance" "id" "us-east-1"
             100 1000).edges 0 "env:prod")
    ∧ ((loadTagsWith (loadTagsWith ⟨[⟨0, "EC2Instance", "id", "i-1"⟩], [], []⟩
          [⟨"arn", [⟨"env", "prod"⟩], some "i-1"⟩] "EC2Instance" "id" "us-east-1" 100 1000)
          [⟨"arn", [⟨"env", "prod"⟩], some "i-1"⟩] "EC2Instance" "id" "us-east-1"
          200 2000).tags.map (fun n => n.id)).Nodup
    ∧ ((loadTagsWith (loadTagsWith ⟨[⟨0, "EC2Instance", "id", "i-1"⟩], [], []⟩
          [⟨"arn", [⟨"env", "prod"⟩], some "i-1"⟩] "EC2Instance" "id" "us-east-1" 100 1000)
          [⟨"arn", [⟨"env", "prod"⟩], some "i-1"⟩] "EC2Instance" "id" "us-east-1"
          200 2000).edges.map edgeKey).Nodup :=
  claim_monotonic_refresh ⟨[⟨0, "EC2Instance", "id", "i-1"⟩], [], []⟩
    [⟨"arn", [⟨"env", "prod"⟩], some "i-1"⟩] "EC2Instance" "id" "us-east-1"
    100 1000 200 2000 "env:prod" 0 (by decide) (by decide)

/-! ## Claim C1: repeating the same batch with the same marker -/

/-- C1 concerns the guarantee that re-running `transform_tags` plus
`load_tags` with the same marker changes nothing.  The ingestion query runs
`SET r.firstseen = timestamp()` on the `TAGGED` edge unconditionally (not
under `ON CREATE`), so a second run of the very same batch and marker at a
later clock value overwrites each touched edge's `firstseen`: at the inputs
below the first run leaves the edge with `firstseen = 1000` and the second
run rewrites it to `2000`, so the resulting graph differs.  Every other
attribute is re-written with identical values. -/
theorem claim_repeat_merge_changes_edge_firstseen :
    transform_tags
        [{ ResourceARN := "arn:aws:ec2:us-east-1:acct:instance/i-1337",
           Tags := [{ Key := "env", Value := "prod" }] }] "ec2:instance"
      = some [{ ResourceARN := "arn:aws:ec2:us-east-1:acct:instance/i-1337",
                Tags := [{ Key := "env", Value := "prod" }], resource_id := some "i-1337" }]
    ∧ (loadTagsWith ⟨[⟨0, "EC2Instance", "id", "i-1337"⟩], [], []⟩
         [{ ResourceARN := "arn:aws:ec2:us-east-1:acct:instance/i-1337",
            Tags := [{ Key := "env", Value := "prod" }], resource_id := some "i-1337" }]
         "EC2Instance" "id" "us-east-1" 100 1000).edges
      = [⟨0, "env:prod", 100, 1000⟩]
    ∧ (loadTagsWith
         (loadTagsWith ⟨[⟨0, "EC2Instance", "id", "i-1337"⟩], [], []⟩
           [{ ResourceARN := "arn:aws:ec2:us-east-1:acct:instance/i-1337",
              Tags := [{ Key := "env", Value := "prod" }], resource_id := some "i-1337" }]
           "EC2Instance" "id" "us-east-1" 100 1000)
         [{ ResourceARN := "arn:aws:ec2:us-east-1:acct:instance/i-1337",
            Tags := [{ Key := "env", Value := "prod" }], resource_id := some "i-1337" }]
         "EC2Instance" "id" "us-east-1" 100 2000).edges
      = [⟨0, "env:prod", 100, 2000⟩]
    ∧ loadTagsWith
         (loadTagsWith ⟨[⟨0, "EC2Instance", "id", "i-1337"⟩], [], []⟩
           [{ ResourceARN := "arn:aws:ec2:us-east-1:acct:instance/i-1337",
              Tags := [{ Key := "env", Value := "prod" }], resource_id := some "i-1337" }]
           "EC2Instance" "id" "us-east-1" 100 1000)
         [{ ResourceARN := "arn:aws:ec2:us-east-1:acct:instance/i-1337",
            Tags := [{ Key := "env", Value := "prod" }], resource_id := some "i-1337" }]
         "EC2Instance" "id" "us-east-1" 100 2000
      ≠ loadTagsWith ⟨[⟨0, "EC2Instance", "id", "i-1337"⟩], [], []⟩
          [{ ResourceARN := "arn:aws:ec2:us-east-1:acct:instance/i-1337",
             Tags := [{ Key := "env", Value := "prod" }], resource_id := some "i-1337" }]
          "EC2Instance" "id" "us-east-1" 100 1000 := by
  decide

end Cartography
